import Mathlib

/-!
Verification of the pokemon image batch-processing pipeline
(`pokemon.py`, `pokemon_optimizado1.py`, `pokemon_optimizado2.py`).

We shallowly embed the fetch phase (`download_single_pokemon`,
`download_pokemon`), the transform phase (`process_single_image`,
`process_pokemon`) and a scheduler model of the bounded task pool, and
prove the spec's claims about them.
-/

namespace Pokemon

/-! ## Zero-padded file names (`f'{i:03d}.png'`) -/

/-- Python's `f'{i:03d}'` format: decimal digits of `i`, left-padded with
`'0'` to a minimum width of 3. -/
def padZero3 (i : Nat) : String :=
  let s := toString i
  String.mk (List.replicate (3 - s.length) '0') ++ s

/-- The per-item file name `f'{i:03d}.png'` built by `download_single_pokemon`. -/
def pokeFileName (i : Nat) : String := padZero3 i ++ ".png"

/-- `os.path.join` on POSIX with a non-empty, slash-free directory part. -/
def ospathjoin (a b : String) : String := a ++ "/" ++ b

/-! ## Fetch phase: `download_single_pokemon` (pokemon_optimizado2.py, lines 26-49)

One loop iteration of the retry loop runs the whole `try:` body: the HTTP
request (`requests.get` + `raise_for_status`) followed by writing the
response bytes to disk.  Its outcome, decided by the environment, is one of:

* `ok`      - request succeeded and the file write succeeded;
* `netErr`  - a `requests.exceptions.RequestException` was raised
              (connection error, timeout, non-2xx status);
* `ioErr`   - an exception NOT of class `RequestException` was raised,
              e.g. an `OSError` while opening or writing the output file.

The `except` clause of the source catches only `RequestException`.
-/

/-- Outcome of one attempt of the `try:` body of `download_single_pokemon`. -/
inductive AttemptOutcome where
  | ok
  | netErr (msg : String)
  | ioErr (msg : String)
deriving DecidableEq, Repr

/-- Observable events of one task: invoking the underlying operation
(`requests.get` + write), and `time.sleep(1)` (the fixed backoff). -/
inductive Ev where
  | invoke
  | sleep
deriving DecidableEq, Repr

/-- The outcome of running `download_single_pokemon` once:
`result` is `.ok (success, file_name)` for a normal return of the Python
function, `.error msg` when an exception escapes it; `trace` lists the
operation invocations and backoff sleeps in order; `writes` lists the
file names written to the dataset directory. -/
structure DownloadRun where
  result : Except String (Bool × String)
  trace : List Ev
  writes : List String
deriving Repr

/-- The retry loop `for attempt in range(retry_count): ...` of
`download_single_pokemon`, with `remaining` iterations left (the current
iteration index is `attempt = retry_count - remaining`).  `env t` is the
outcome of the `try:` body on iteration `t` (0-based); the loop tests
`attempt == retry_count - 1` before sleeping, exactly as the source. -/
def downloadLoop (env : Nat → AttemptOutcome) (file_name : String)
    (retry_count : Nat) : Nat → DownloadRun
  | 0 => { result := .ok (false, file_name), trace := [], writes := [] }
  | remaining + 1 =>
      let attempt := retry_count - (remaining + 1)
      match env attempt with
      | .ok =>
          { result := .ok (true, file_name), trace := [.invoke], writes := [file_name] }
      | .netErr _ =>
          if attempt = retry_count - 1 then
            { result := .ok (false, file_name), trace := [.invoke], writes := [] }
          else
            let rest := downloadLoop env file_name retry_count remaining
            { result := rest.result, trace := .invoke :: .sleep :: rest.trace,
              writes := rest.writes }
      | .ioErr m =>
          { result := .error m, trace := [.invoke], writes := [] }

/-- `download_single_pokemon((i, dir_name, base_url, retry_count))`:
builds `file_name = f'{i:03d}.png'` and runs the retry loop with all
`retry_count` iterations remaining. -/
def download_single_pokemon (i : Nat) (env : Nat → AttemptOutcome)
    (retry_count : Nat) : DownloadRun :=
  downloadLoop env (pokeFileName i) retry_count retry_count

/-- Number of invocations of the underlying operation in a run. -/
def DownloadRun.invocations (r : DownloadRun) : Nat := r.trace.count Ev.invoke

/-! ## Fetch phase orchestrator: `download_pokemon` (pokemon_optimizado2.py, lines 51-86)

`download_pokemon` submits `download_single_pokemon((i, dir, url, 2))` for
`i in range(1, n + 1)` (the retry count is hard-coded to 2) to a thread
pool, then iterates `as_completed`, calling `future.result()` on each
future (re-raising any exception the task let escape), incrementing
`successful_downloads` on success and appending the file name to
`failed_downloads` otherwise.  `as_completed` yields the futures in an
arbitrary completion order, so the collection loop is stated over any
permutation of the task runs.  The per-id environment `env i t` gives the
outcome of attempt `t` for item `i`. -/

/-- The list of task runs submitted by `download_pokemon n`, one per id in
`1..n`, each with the hard-coded retry count 2. -/
def downloadTasks (n : Nat) (env : Nat → Nat → AttemptOutcome) : List DownloadRun :=
  (List.range n).map (fun j => download_single_pokemon (j + 1) (env (j + 1)) 2)

/-- One iteration of the `for future in as_completed(futures)` loop of
`download_pokemon`: `future.result()` re-raises an exception that escaped
the task (an `.error` run aborts the loop), otherwise the success counter
or the failed-file list is updated. -/
def downloadStep (acc : Nat × List String) (run : DownloadRun) :
    Except String (Nat × List String) :=
  match run.result with
  | .error m => .error m
  | .ok (success, filename) =>
      if success then Except.ok (acc.1 + 1, acc.2)
      else Except.ok (acc.1, acc.2 ++ [filename])

/-- The whole collection loop of `download_pokemon` over the task runs in
completion order. -/
def download_collect (runs : List DownloadRun) : Except String (Nat × List String) :=
  runs.foldlM downloadStep (0, [])

/-- Aggregate report of one phase. -/
structure BatchSummary where
  totalItems : Nat
  successCount : Nat
  failedFiles : List String
deriving DecidableEq, Repr

/-- `download_pokemon(n, ...)` run with completion order `order` (a
permutation of `downloadTasks n env`): collects the results and reports
`successful_downloads`/`failed_downloads` against total `n`; an exception
escaping a task propagates out of the orchestrator. -/
def download_pokemon (n : Nat) (order : List DownloadRun) :
    Except String BatchSummary :=
  match download_collect order with
  | .error m => .error m
  | .ok (succ, failed) => .ok { totalItems := n, successCount := succ, failedFiles := failed }

/-! ## Transform phase: `process_single_image` (pokemon_optimizado2.py, lines 93-126)

The PIL image is embedded as its size, an opaque payload identifying the
pixel data, and the history of operations applied to it; each PIL call of
the source appends one operation.  A file of the input directory either
decodes to an image or is corrupt (`Image.open`/decoding raises). -/

/-- Resampling filters (the source uses only `Image.LANCZOS`). -/
inductive RFilter where
  | lanczos
deriving DecidableEq, Repr

/-- One PIL operation applied by the transform chain. -/
inductive ImgOp where
  | convertRGB
  | gaussianBlur (radius : Nat)
  | contrastEnhance (factor : ℚ)
  | edgeEnhanceMore
  | invert
  | resize (w h : Nat) (filt : RFilter)
deriving DecidableEq, Repr

/-- An in-memory PIL image: its size, an opaque pixel payload, and the
operations applied since decoding. -/
structure Img where
  width : Nat
  height : Nat
  data : Nat
  history : List ImgOp
deriving DecidableEq, Repr

/-- Apply one PIL operation: `resize` sets the new size, every operation
is recorded in the history. -/
def Img.apply (img : Img) (op : ImgOp) : Img :=
  match op with
  | .resize w h f =>
      { img with width := w, height := h, history := img.history ++ [.resize w h f] }
  | op => { img with history := img.history ++ [op] }

/-- Content of a file in the input directory. -/
inductive FileContent where
  | image (w h data : Nat)
  | corrupt (msg : String)
deriving DecidableEq, Repr

/-- `Image.open(path)` + decoding: a missing file raises
`FileNotFoundError`, a corrupt file raises its decode error. -/
def openImage (c : Option FileContent) : Except String Img :=
  match c with
  | none => .error "FileNotFoundError"
  | some (.corrupt m) => .error m
  | some (.image w h d) => .ok { width := w, height := h, data := d, history := [] }

/-- An image encoded to disk by `img.save(path, quality=95, optimize=True)`. -/
structure SavedImage where
  img : Img
  quality : Nat
  optimize : Bool
deriving DecidableEq, Repr

/-- Environment of one transform run: the file system under the input
paths, and whether saving to a given output path raises an I/O error. -/
structure ProcEnv where
  fs : String → Option FileContent
  writeError : String → Option String

/-- Python values appearing in the result tuples of the source (the
source returns `(True, image)` or `(False, image, str(e))`). -/
inductive PyVal where
  | b (x : Bool)
  | s (x : String)
deriving DecidableEq, Repr

/-- Result of one transform task: the returned Python tuple (a list of
values) and the files written to the output directory. -/
structure ProcRun where
  result : List PyVal
  written : List (String × SavedImage)
deriving DecidableEq, Repr

/-- The `try:` body of `process_single_image`: open and decode, convert
to RGB, blur radius 10, contrast enhance 1.5, EDGE_ENHANCE_MORE, invert,
blur radius 5, upscale to `(width*2, height*2)` with LANCZOS, downscale
back to `(width, height)` with LANCZOS, save with quality 95 to
`dir_name/image`. -/
def process_body (env : ProcEnv) (image dir_origin dir_name : String) :
    Except String (String × SavedImage) :=
  let path_origin := ospathjoin dir_origin image
  match openImage (env.fs path_origin) with
  | .error e => .error e
  | .ok img0 =>
      let img := img0.apply .convertRGB
      let img := img.apply (.gaussianBlur 10)
      let img := img.apply (.contrastEnhance 1.5)
      let img := img.apply .edgeEnhanceMore
      let img_inv := img.apply .invert
      let img_inv := img_inv.apply (.gaussianBlur 5)
      let width := img_inv.width
      let height := img_inv.height
      let img_inv := img_inv.apply (.resize (width * 2) (height * 2) .lanczos)
      let img_inv := img_inv.apply (.resize width height .lanczos)
      let saving_path := ospathjoin dir_name image
      match env.writeError saving_path with
      | some m => .error m
      | none => .ok (saving_path, { img := img_inv, quality := 95, optimize := true })

/-- `process_single_image(args)`: the body wrapped in
`try: ... except Exception as e: return (False, image, str(e))`; every
exception is caught at the task boundary. -/
def process_single_image (env : ProcEnv) (image dir_origin dir_name : String) :
    ProcRun :=
  match process_body env image dir_origin dir_name with
  | .ok (p, saved) => { result := [.b true, .s image], written := [(p, saved)] }
  | .error e => { result := [.b false, .s image, .s e], written := [] }

/-! ## Transform phase orchestrator: `process_pokemon` (pokemon_optimizado2.py, lines 141-177)

`process_pokemon` enumerates the input directory, keeps the `.png` files
sorted by name, submits one `process_single_image` task per file to a
process pool, and in the `as_completed` loop tests `result[0]` and, when
it is falsy, appends `(result[1], result[2])` to the failure list. -/

/-- Python's `str.endswith(suf)`: whether `suf` is a suffix of the
string (decided on the character lists). -/
def endswith (s suf : String) : Bool := suf.data.isSuffixOf s.data

/-- `sorted([f for f in os.listdir(dir_origin) if f.endswith('.png')])`:
the `.png` files of the directory listing, sorted ascending by name. -/
def phaseBImages (listing : List String) : List String :=
  List.insertionSort (· ≤ ·) (listing.filter (fun f => endswith f ".png"))

/-- Python truthiness of the values that can appear in a result tuple. -/
def pyTruthy : PyVal → Bool
  | .b x => x
  | .s x => !(x == "")

/-- One iteration of the aggregation loop of `process_pokemon`:
`if result[0]: successful += 1 else: failed.append((result[1], result[2]))`.
Out-of-range tuple indexing raises an `IndexError`. -/
def processStep (acc : Nat × List (PyVal × PyVal)) (r : List PyVal) :
    Except String (Nat × List (PyVal × PyVal)) :=
  match r.get? 0 with
  | none => .error "IndexError"
  | some v0 =>
      if pyTruthy v0 then Except.ok (acc.1 + 1, acc.2)
      else
        match r.get? 1, r.get? 2 with
        | some v1, some v2 => Except.ok (acc.1, acc.2 ++ [(v1, v2)])
        | _, _ => .error "IndexError"

/-- The whole `as_completed` aggregation loop of `process_pokemon` over
the results in completion order. -/
def process_collect (results : List (List PyVal)) :
    Except String (Nat × List (PyVal × PyVal)) :=
  results.foldlM processStep (0, [])

/-- The list of task runs submitted by `process_pokemon`, one per file of
the sorted `.png` listing. -/
def processTasks (listing : List String) (env : ProcEnv)
    (dir_origin dir_name : String) : List ProcRun :=
  (phaseBImages listing).map (fun image => process_single_image env image dir_origin dir_name)

/-- `process_pokemon(dir_origin, dir_name, ...)` run with result
completion order `order`: `total = len(images)` is the size of the sorted
`.png` listing, and the aggregation loop produces the success count and
the failure list. -/
def process_pokemon (listing : List String) (order : List (List PyVal)) :
    Except String BatchSummary :=
  match process_collect order with
  | .error m => .error m
  | .ok (succ, failed) =>
      .ok { totalItems := (phaseBImages listing).length, successCount := succ,
            failedFiles := failed.map (fun p => match p.1 with | .s x => x | .b _ => "") }

/-! ## Bounded task pool (spec section 4.2)

Modelled from the spec: the pool itself is Python's
`ThreadPoolExecutor` / `ProcessPoolExecutor` (standard library, not part
of this repository), so its scheduling is embedded as the spec describes
it: tasks are pulled from a fixed work queue by workers; at most
`concurrencyLimit` tasks execute concurrently; a worker finishing one
task pulls the next until the queue is exhausted; every task produces
exactly one result, collected in arbitrary completion order.  Tasks are
identified by their index `0..m-1`. -/

/-- State of the pool: queued task indices (in submission order), the
tasks currently executing, and the finished tasks (most recent first). -/
structure PoolState where
  pending : List Nat
  running : List Nat
  done : List Nat
deriving DecidableEq, Repr

/-- Initial pool state for `m` submitted tasks. -/
def initPool (m : Nat) : PoolState :=
  { pending := List.range m, running := [], done := [] }

/-- One scheduling step of the bounded pool with concurrency limit `c`:
a queued task may start while fewer than `c` tasks run; a running task
may finish, delivering its result. -/
inductive PoolStep (c : Nat) : PoolState → PoolState → Prop
  | start (i : Nat) (pending running done : List Nat) :
      running.length < c →
      PoolStep c ⟨i :: pending, running, done⟩ ⟨pending, i :: running, done⟩
  | finish (i : Nat) (pending running done : List Nat) :
      i ∈ running →
      PoolStep c ⟨pending, running, done⟩ ⟨pending, running.erase i, i :: done⟩

/-- Pool states reachable from the initial state for `m` tasks. -/
def PoolReach (c m : Nat) (s : PoolState) : Prop :=
  Relation.ReflTransGen (PoolStep c) (initPool m) s

/-- The pool is terminal when the queue is empty and no task runs. -/
def PoolDone (s : PoolState) : Prop := s.pending = [] ∧ s.running = []

/-- Scheduling measure: every step strictly decreases it, so no run of
the pool is infinite. -/
def poolMeasure (s : PoolState) : Nat := 2 * s.pending.length + s.running.length

/-- Pool invariant: the concurrency bound holds and the queued, running
and finished tasks together are exactly the `m` submitted tasks. -/
def poolInv (c m : Nat) (s : PoolState) : Prop :=
  s.running.length ≤ c ∧
    ((s.pending : Multiset Nat) + (s.running : Multiset Nat) + (s.done : Multiset Nat) =
      (List.range m : List Nat))

/-! ## Result-shape helpers and concrete test environments -/

/-- A transform result counts as a success when its first component is
`True` (the `if result[0]:` test of `process_pokemon`). -/
def isSucc (r : List PyVal) : Bool :=
  match r with
  | .b true :: _ => true
  | _ => false

/-- The two tuple shapes `process_single_image` can return:
`(True, image)` or `(False, image, str(e))`. -/
def goodShape (r : List PyVal) : Prop :=
  (∃ x, r = [.b true, .s x]) ∨ (∃ x m, r = [.b false, .s x, .s m])

/-- Test environment: the first attempt times out, later attempts succeed. -/
def envNetFirst : Nat → AttemptOutcome :=
  fun t => if t = 0 then .netErr "timeout" else .ok

/-- Test environment: every attempt raises a request exception. -/
def envAllNet : Nat → AttemptOutcome := fun _ => .netErr "timeout"

/-- Test environment: every attempt raises a non-request exception
(an `OSError` while writing the downloaded bytes). -/
def envDiskFull : Nat → AttemptOutcome := fun _ => .ioErr "disk full"

/-- Per-id test environment for a whole fetch phase: every attempt of
every id raises a non-request exception while writing the file. -/
def envDiskFullPhase : Nat → Nat → AttemptOutcome := fun _ _ => .ioErr "disk full"

/-- Per-id test environment for a whole fetch phase: id 1 succeeds
immediately, every other id fails all attempts with a request error. -/
def fetchEnvTest : Nat → Nat → AttemptOutcome :=
  fun i _ => if i = 1 then .ok else .netErr "timeout"

/-- Test file system holding a single valid 4x3 image at `in/001.png`. -/
def fsOne : String → Option FileContent :=
  fun p => if p = "in/001.png" then some (.image 4 3 7) else none

/-- Test transform environment over `fsOne` with no write errors. -/
def procEnvTest : ProcEnv :=
  { fs := fsOne, writeError := fun _ => none }

/-- A second transform environment agreeing with `procEnvTest` on
`in/001.png` and on the output path, but differing elsewhere. -/
def procEnvTest2 : ProcEnv :=
  { fs := fun p => if p = "in/001.png" then some (.image 4 3 7) else some (.corrupt "junk"),
    writeError := fun p => if p = "out/001.png" then none else some "denied" }

/-- Test transform environment: `in/002.png` is a corrupt file, every
other path holds a valid image, and writes never fail. -/
def procEnvOneBad : ProcEnv :=
  { fs := fun p => if p = "in/002.png" then some (.corrupt "cannot identify image file")
      else some (.image 4 3 7),
    writeError := fun _ => none }

/-! ## Retry-loop lemmas -/

/-- Every tuple returned by the retry loop carries the precomputed
`file_name`, whatever the environment does. -/
theorem downloadLoop_result_name (env : Nat → AttemptOutcome) (f : String) (rc : Nat) :
    ∀ remaining b s, (downloadLoop env f rc remaining).result = Except.ok (b, s) → s = f := by
  intro remaining
  induction remaining with
  | zero =>
      intro b s h
      simp only [downloadLoop] at h
      injection h with h1
      injection h1 with hb hs
      exact hs.symm
  | succ k ih =>
      intro b s h
      cases henv : env (rc - (k + 1)) with
      | ok =>
          simp only [downloadLoop, henv] at h
          injection h with h1
          injection h1 with hb hs
          exact hs.symm
      | netErr m =>
          by_cases hlast : rc - (k + 1) = rc - 1
          · simp only [downloadLoop, henv, if_pos hlast] at h
            injection h with h1
            injection h1 with hb hs
            exact hs.symm
          · simp only [downloadLoop, henv, if_neg hlast] at h
            exact ih b s h
      | ioErr m =>
          simp only [downloadLoop, henv] at h
          exact Except.noConfusion h

/-- If the environment never raises anything but request exceptions, the
retry loop always returns a tuple (no exception escapes the task). -/
theorem downloadLoop_no_raise (env : Nat → AttemptOutcome) (f : String) (rc : Nat)
    (henv : ∀ t m, env t ≠ .ioErr m) :
    ∀ remaining, ∃ p, (downloadLoop env f rc remaining).result = Except.ok p := by
  intro remaining
  induction remaining with
  | zero => exact ⟨(false, f), rfl⟩
  | succ k ih =>
      cases he : env (rc - (k + 1)) with
      | ok => exact ⟨(true, f), by simp [downloadLoop, he]⟩
      | netErr m =>
          by_cases hlast : rc - (k + 1) = rc - 1
          · exact ⟨(false, f), by simp [downloadLoop, he, if_pos hlast]⟩
          · obtain ⟨p, hp⟩ := ih
            exact ⟨p, by simp only [downloadLoop, he, if_neg hlast]; exact hp⟩
      | ioErr m => exact absurd he (henv _ m)

/-- Behavior of the retry loop when the operation fails with request
exceptions up to iteration `s` exclusive and succeeds at iteration `s`:
the loop stops at the success with a backoff sleep between consecutive
invocations. -/
theorem downloadLoop_success (env : Nat → AttemptOutcome) (f : String) (rc s : Nat)
    (hs : s < rc) (hok : env s = .ok) :
    ∀ remaining, remaining ≤ rc → rc - remaining ≤ s →
      (∀ t, rc - remaining ≤ t → t < s → ∃ m, env t = .netErr m) →
      downloadLoop env f rc remaining =
        { result := .ok (true, f),
          trace := (List.replicate (s - (rc - remaining)) [Ev.invoke, Ev.sleep]).flatten
            ++ [.invoke],
          writes := [f] } := by
  intro remaining
  induction remaining with
  | zero =>
      intro h1 h2 h3
      exact absurd hs (by omega)
  | succ k ih =>
      intro h1 h2 h3
      by_cases heq : rc - (k + 1) = s
      · simp [downloadLoop, heq, hok]
      · have hlt : rc - (k + 1) < s := by omega
        obtain ⟨m, hm⟩ := h3 (rc - (k + 1)) le_rfl hlt
        have hlast : ¬(rc - (k + 1) = rc - 1) := by omega
        have hih := ih (by omega) (by omega) (fun t ht1 ht2 => h3 t (by omega) ht2)
        simp only [downloadLoop, hm, if_neg hlast, hih]
        have hq : s - (rc - (k + 1)) = (s - (rc - k)) + 1 := by omega
        rw [hq, List.replicate_succ]
        simp

/-- Behavior of the retry loop when every attempt fails with a request
exception: the loop returns the failure tuple after exactly `remaining`
invocations with a backoff sleep between consecutive ones. -/
theorem downloadLoop_allfail (env : Nat → AttemptOutcome) (f : String) (rc : Nat) :
    ∀ remaining, 1 ≤ remaining → remaining ≤ rc →
      (∀ t, rc - remaining ≤ t → t < rc → ∃ m, env t = .netErr m) →
      downloadLoop env f rc remaining =
        { result := .ok (false, f),
          trace := (List.replicate (remaining - 1) [Ev.invoke, Ev.sleep]).flatten ++ [.invoke],
          writes := [] } := by
  intro remaining
  induction remaining with
  | zero => intro h1; exact absurd h1 (by omega)
  | succ k ih =>
      intro h1 h2 h3
      obtain ⟨m, hm⟩ := h3 (rc - (k + 1)) le_rfl (by omega)
      by_cases hk : k = 0
      · subst hk
        simp [downloadLoop, hm]
      · have hlast : ¬(rc - (k + 1) = rc - 1) := by omega
        have hih := ih (by omega) (by omega) (fun t ht1 ht2 => h3 t (by omega) ht2)
        simp only [downloadLoop, hm, if_neg hlast, hih]
        have hq : (k + 1) - 1 = (k - 1) + 1 := by omega
        rw [hq, List.replicate_succ]
        simp

/-- Counting the operation invocations in the trace shape produced by the
retry loop. -/
theorem count_invoke_trace (q : Nat) :
    (((List.replicate q [Ev.invoke, Ev.sleep]).flatten ++ [Ev.invoke]).count Ev.invoke)
      = q + 1 := by
  induction q with
  | zero => rfl
  | succ n ih =>
      rw [List.replicate_succ, List.flatten_cons, List.append_assoc, List.count_append, ih]
      have h1 : List.count Ev.invoke [Ev.invoke, Ev.sleep] = 1 := by decide
      omega

/-- C2: with attempt budget `maxAttempts ≥ 1`, a fetch item whose
operation fails (with request exceptions) on its first `k-1` attempts and
succeeds on attempt `k ≤ maxAttempts` is recorded as a success with
exactly `k` invocations and a backoff sleep between consecutive ones; an
item whose operation fails on all `maxAttempts` attempts is recorded as a
permanent failure with exactly `maxAttempts` invocations, never fewer and
never more. -/
theorem spec_C2 (env : Nat → AttemptOutcome) (i k maxAttempts : Nat)
    (hk1 : 1 ≤ k) (hk2 : k ≤ maxAttempts) :
    ((∀ t, t < k - 1 → ∃ m, env t = .netErr m) → env (k - 1) = .ok →
      download_single_pokemon i env maxAttempts =
        { result := .ok (true, pokeFileName i),
          trace := (List.replicate (k - 1) [Ev.invoke, Ev.sleep]).flatten ++ [.invoke],
          writes := [pokeFileName i] } ∧
      (download_single_pokemon i env maxAttempts).invocations = k) ∧
    ((∀ t, t < maxAttempts → ∃ m, env t = .netErr m) →
      download_single_pokemon i env maxAttempts =
        { result := .ok (false, pokeFileName i),
          trace := (List.replicate (maxAttempts - 1) [Ev.invoke, Ev.sleep]).flatten
            ++ [.invoke],
          writes := [] } ∧
      (download_single_pokemon i env maxAttempts).invocations = maxAttempts) := by
  constructor
  · intro hfail hok
    have h := downloadLoop_success env (pokeFileName i) maxAttempts (k - 1) (by omega) hok
      maxAttempts le_rfl (by omega) (fun t ht1 ht2 => hfail t ht2)
    rw [Nat.sub_self, Nat.sub_zero] at h
    refine ⟨h, ?_⟩
    have h2 : (download_single_pokemon i env maxAttempts).invocations
        = ((List.replicate (k - 1) [Ev.invoke, Ev.sleep]).flatten
            ++ [Ev.invoke]).count Ev.invoke := by
      show (downloadLoop env (pokeFileName i) maxAttempts maxAttempts).invocations = _
      rw [h]
      rfl
    rw [h2, count_invoke_trace]
    omega
  · intro hfail
    have h := downloadLoop_allfail env (pokeFileName i) maxAttempts maxAttempts
      (by omega) le_rfl (fun t ht1 ht2 => hfail t ht2)
    refine ⟨h, ?_⟩
    have h2 : (download_single_pokemon i env maxAttempts).invocations
        = ((List.replicate (maxAttempts - 1) [Ev.invoke, Ev.sleep]).flatten
            ++ [Ev.invoke]).count Ev.invoke := by
      show (downloadLoop env (pokeFileName i) maxAttempts maxAttempts).invocations = _
      rw [h]
      rfl
    rw [h2, count_invoke_trace]
    omega

/-- Witness for C2 at a concrete input: first attempt times out, second
succeeds, so the item succeeds after exactly two invocations with one
backoff sleep in between. -/
theorem spec_C2_witness :
    download_single_pokemon 1 envNetFirst 2 =
      { result := Except.ok (true, "001.png"),
        trace := [Ev.invoke, Ev.sleep, Ev.invoke], writes := ["001.png"] } := by
  have h := ((spec_C2 envNetFirst 1 2 2 (by omega) (by omega)).1
    (fun t ht => ⟨"timeout", by interval_cases t; rfl⟩) (by rfl)).1
  rw [h]
  have hname : pokeFileName 1 = "001.png" := by decide
  rw [hname]
  rfl

/-- C9: a retry count of 0 skips the loop entirely — no HTTP request, no
file write, and the failure tuple `(False, f'{i:03d}.png')` is returned;
for every retry count, any tuple the task returns carries the zero-padded
file name derived from the item's id. -/
theorem spec_C9 (i : Nat) (env : Nat → AttemptOutcome) :
    download_single_pokemon i env 0 =
      { result := Except.ok (false, pokeFileName i), trace := [], writes := [] } ∧
    (download_single_pokemon i env 0).invocations = 0 ∧
    (∀ rc b s, (download_single_pokemon i env rc).result = Except.ok (b, s) →
      s = pokeFileName i) := by
  refine ⟨rfl, rfl, ?_⟩
  intro rc b s h
  exact downloadLoop_result_name env (pokeFileName i) rc rc b s h

/-- Witness for C9 at a concrete input: the tuple returned for id 2 after
two exhausted attempts carries the zero-padded name `002.png`. -/
theorem spec_C9_witness : "002.png" = pokeFileName 2 :=
  (spec_C9 2 envAllNet).2.2 2 false "002.png" (by rfl)

/-! ## Fetch-phase aggregation lemmas -/

/-- The collection loop of `download_pokemon`, when every task returned a
tuple, returns counts with `successes + failures = processed results`
(relative to the accumulator it starts from). -/
theorem download_collect_go (runs : List DownloadRun) :
    ∀ acc : Nat × List String,
      (∀ r ∈ runs, ∃ p, r.result = Except.ok p) →
      ∃ succ failed,
        runs.foldlM downloadStep acc = Except.ok (succ, failed) ∧
        succ + failed.length = acc.1 + acc.2.length + runs.length := by
  induction runs with
  | nil =>
      intro acc _
      exact ⟨acc.1, acc.2, rfl, by simp⟩
  | cons r rs ih =>
      intro acc h
      obtain ⟨⟨b, fn⟩, hr⟩ := h r (List.mem_cons_self r rs)
      have hrest : ∀ x ∈ rs, ∃ p, x.result = Except.ok p :=
        fun x hx => h x (List.mem_cons_of_mem r hx)
      cases b with
      | true =>
          obtain ⟨succ, failed, hfold, hsum⟩ := ih (acc.1 + 1, acc.2) hrest
          refine ⟨succ, failed, ?_, by simp at hsum ⊢; omega⟩
          rw [List.foldlM_cons]
          simp only [downloadStep, hr]
          exact hfold
      | false =>
          obtain ⟨succ, failed, hfold, hsum⟩ := ih (acc.1, acc.2 ++ [fn]) hrest
          refine ⟨succ, failed, ?_, by simp at hsum ⊢; omega⟩
          rw [List.foldlM_cons]
          simp only [downloadStep, hr]
          exact hfold

/-- C1: for every `n ≥ 0`, the fetch phase over ids `1..n` submits
exactly one task per id; when every task returns (its failures being
request errors, handled in-task), the phase completes with a summary
satisfying `successCount + |failedFiles| = totalItems = n`, whatever
completion order the pool delivers the results in. -/
theorem spec_C1 (n : Nat) (env : Nat → Nat → AttemptOutcome) (order : List DownloadRun)
    (hperm : order.Perm (downloadTasks n env))
    (hok : ∀ r ∈ downloadTasks n env, ∃ p, r.result = Except.ok p) :
    order.length = n ∧
    (∀ j, j < n → (downloadTasks n env).get? j =
      some (download_single_pokemon (j + 1) (env (j + 1)) 2)) ∧
    ∃ s : BatchSummary, download_pokemon n order = Except.ok s ∧
      s.totalItems = n ∧ s.successCount + s.failedFiles.length = n := by
  have hlen : order.length = n := by
    rw [hperm.length_eq]
    simp [downloadTasks]
  refine ⟨hlen, ?_, ?_⟩
  · intro j hj
    rw [downloadTasks, List.get?_map, List.get?_range hj]
    rfl
  · have hok2 : ∀ r ∈ order, ∃ p, r.result = Except.ok p :=
      fun r hr => hok r (hperm.subset hr)
    obtain ⟨succ, failed, hfold, hsum⟩ := download_collect_go order (0, []) hok2
    refine ⟨{ totalItems := n, successCount := succ, failedFiles := failed }, ?_, rfl, ?_⟩
    · rw [download_pokemon, download_collect, hfold]
    · have hs : succ + failed.length = order.length := by simpa using hsum
      show succ + failed.length = n
      omega

/-- Witness for C1 at a concrete input: two ids, id 1 succeeding and id 2
failing both attempts, collected in reversed completion order. -/
theorem spec_C1_witness :
    ∃ s : BatchSummary,
      download_pokemon 2 ((downloadTasks 2 fetchEnvTest).reverse) = Except.ok s ∧
      s.totalItems = 2 ∧ s.successCount + s.failedFiles.length = 2 := by
  have h := spec_C1 2 fetchEnvTest ((downloadTasks 2 fetchEnvTest).reverse)
    ((downloadTasks 2 fetchEnvTest).reverse_perm)
    ?_
  · exact h.2.2
  · intro r hr
    rw [downloadTasks] at hr
    simp only [List.mem_map, List.mem_range] at hr
    obtain ⟨j, hj, hjr⟩ := hr
    interval_cases j
    · exact ⟨(true, pokeFileName 1), by rw [← hjr]; rfl⟩
    · exact ⟨(false, pokeFileName 2), by rw [← hjr]; rfl⟩

/-! ## Error propagation at the task boundary -/

/-- Counterexample to C3: an I/O error while writing the downloaded file
(an `OSError`, not a `requests.exceptions.RequestException`) is not
caught by the `except` clause of `download_single_pokemon`: the exception
escapes the task, and `future.result()` re-raises it inside the
collection loop of `download_pokemon`, terminating the orchestrator
instead of being converted to a failure result. -/
theorem spec_C3_counterexample :
    (download_single_pokemon 1 envDiskFull 2).result = Except.error "disk full" ∧
    download_pokemon 1 (downloadTasks 1 envDiskFullPhase) = Except.error "disk full" := by
  constructor
  · rfl
  · rfl

/-- C3 (amended): every error raised inside a transform task is caught at
the task boundary and converted into that task's tuple result; in a fetch
task the errors of the request-exception class are caught and converted,
and when every attempt outcome is a success or a request error the task
always returns a tuple, so no such error propagates to the orchestrator. -/
theorem spec_C3_amended :
    (∀ (env : ProcEnv) (image d1 d2 : String),
      (process_single_image env image d1 d2).result = [.b true, .s image] ∨
      ∃ m, (process_single_image env image d1 d2).result = [.b false, .s image, .s m]) ∧
    (∀ (env : Nat → AttemptOutcome) (i rc : Nat),
      (∀ t m, env t ≠ .ioErr m) →
      ∃ p, (download_single_pokemon i env rc).result = Except.ok p) := by
  constructor
  · intro env image d1 d2
    cases hb : process_body env image d1 d2 with
    | ok p =>
        obtain ⟨path, saved⟩ := p
        left
        rw [process_single_image, hb]
    | error e =>
        right
        exact ⟨e, by rw [process_single_image, hb]⟩
  · intro env i rc henv
    exact downloadLoop_no_raise env (pokeFileName i) rc henv rc

/-- Witness for the amended C3 at concrete inputs: a fetch task whose
attempts all raise request errors returns a tuple, and a transform task
over a missing input file returns a failure tuple. -/
theorem spec_C3_amended_witness :
    (∃ p, (download_single_pokemon 1 envAllNet 2).result = Except.ok p) ∧
    ((process_single_image procEnvTest "404.png" "in" "out").result
        = [.b true, .s "404.png"] ∨
      ∃ m, (process_single_image procEnvTest "404.png" "in" "out").result
        = [.b false, .s "404.png", .s m]) := by
  constructor
  · exact spec_C3_amended.2 envAllNet 1 2
      (fun t m => by rw [envAllNet]; intro h; cases h)
  · exact spec_C3_amended.1 procEnvTest "404.png" "in" "out"

/-! ## Transform-task lemmas -/

/-- A transform task returns either the success tuple `(True, image)` or
a failure tuple `(False, image, str(e))`, always carrying its own file
name. -/
theorem process_result_cases (env : ProcEnv) (image d1 d2 : String) :
    (process_single_image env image d1 d2).result = [.b true, .s image] ∨
    ∃ m, (process_single_image env image d1 d2).result = [.b false, .s image, .s m] := by
  cases hb : process_body env image d1 d2 with
  | ok p =>
      obtain ⟨path, saved⟩ := p
      left
      rw [process_single_image, hb]
  | error e =>
      right
      exact ⟨e, by rw [process_single_image, hb]⟩

/-- A transform task that fails writes nothing to the output directory. -/
theorem process_written_of_fail (env : ProcEnv) (image d1 d2 : String)
    (h : isSucc (process_single_image env image d1 d2).result = false) :
    (process_single_image env image d1 d2).written = [] := by
  cases hb : process_body env image d1 d2 with
  | ok p =>
      obtain ⟨path, saved⟩ := p
      rw [process_single_image, hb] at h
      simp [isSucc] at h
  | error e =>
      rw [process_single_image, hb]

/-- The aggregation loop of `process_pokemon` over well-shaped results:
it never raises, counts the successes, and collects one pair per
failure. -/
theorem process_collect_go (results : List (List PyVal)) :
    ∀ acc : Nat × List (PyVal × PyVal),
      (∀ r ∈ results, goodShape r) →
      ∃ fails,
        results.foldlM processStep acc =
          Except.ok (acc.1 + results.countP isSucc, fails) ∧
        fails.length = acc.2.length + results.countP (fun r => !(isSucc r)) := by
  induction results with
  | nil =>
      intro acc _
      exact ⟨acc.2, rfl, by simp⟩
  | cons r rs ih =>
      intro acc h
      have hrest : ∀ x ∈ rs, goodShape x := fun x hx => h x (List.mem_cons_of_mem r hx)
      rcases h r (List.mem_cons_self r rs) with ⟨x, rfl⟩ | ⟨x, m, rfl⟩
      · obtain ⟨fails, hfold, hlen⟩ := ih (acc.1 + 1, acc.2) hrest
        refine ⟨fails, ?_, ?_⟩
        · rw [List.foldlM_cons]
          show rs.foldlM processStep (acc.1 + 1, acc.2) = _
          rw [hfold]
          have harith : acc.1 + 1 + rs.countP isSucc
              = acc.1 + ([PyVal.b true, PyVal.s x] :: rs).countP isSucc := by
            simp [List.countP_cons, isSucc]
            omega
          rw [harith]
        · rw [hlen]
          simp [List.countP_cons, isSucc]
      · obtain ⟨fails, hfold, hlen⟩ := ih (acc.1, acc.2 ++ [(PyVal.s x, PyVal.s m)]) hrest
        refine ⟨fails, ?_, ?_⟩
        · rw [List.foldlM_cons]
          show rs.foldlM processStep (acc.1, acc.2 ++ [(PyVal.s x, PyVal.s m)]) = _
          rw [hfold]
          have harith : acc.1 + rs.countP isSucc
              = acc.1 + ([PyVal.b false, PyVal.s x, PyVal.s m] :: rs).countP isSucc := by
            simp [List.countP_cons, isSucc]
          rw [harith]
        · rw [hlen]
          simp [List.countP_cons, isSucc]
          omega

/-- C10: every result of `process_single_image` is a 2-tuple
`(True, filename)` or a 3-tuple `(False, filename, errorMessage)`; the
aggregation loop reads index 2 only when index 0 is `False`, where the
index is in bounds, so the loop never raises an `IndexError`. -/
theorem spec_C10 :
    (∀ (env : ProcEnv) (image d1 d2 : String),
      goodShape (process_single_image env image d1 d2).result) ∧
    (∀ r, goodShape r → isSucc r = false → r.get? 2 ≠ none) ∧
    (∀ results : List (List PyVal), (∀ r ∈ results, goodShape r) →
      ∃ acc, process_collect results = Except.ok acc) := by
  refine ⟨?_, ?_, ?_⟩
  · intro env image d1 d2
    rcases process_result_cases env image d1 d2 with h | ⟨m, h⟩
    · exact Or.inl ⟨image, h⟩
    · exact Or.inr ⟨image, m, h⟩
  · intro r hr hf
    rcases hr with ⟨x, rfl⟩ | ⟨x, m, rfl⟩
    · simp [isSucc] at hf
    · simp
  · intro results h
    obtain ⟨fails, hfold, _⟩ := process_collect_go results (0, []) h
    exact ⟨_, hfold⟩

/-- Witness for C10 at a concrete input: aggregating one success tuple
and one failure tuple raises no `IndexError`. -/
theorem spec_C10_witness :
    ∃ acc, process_collect
      [[PyVal.b true, PyVal.s "001.png"], [PyVal.b false, PyVal.s "002.png", PyVal.s "boom"]]
      = Except.ok acc := by
  refine spec_C10.2.2 _ ?_
  intro r hr
  simp only [List.mem_cons, List.not_mem_nil, or_false] at hr
  rcases hr with rfl | rfl
  · exact Or.inl ⟨"001.png", rfl⟩
  · exact Or.inr ⟨"002.png", "boom", rfl⟩

/-- C4: on a successfully decoded input of size `w y h`, the transform
applies exactly the ordered chain convert-RGB, Gaussian blur radius 10,
contrast enhance 1.5, EDGE_ENHANCE_MORE, invert, Gaussian blur radius 5,
LANCZOS upscale to `(w*2, h*2)`, LANCZOS downscale back to the original
`(w, h)`, and saves with quality 95 under the same filename in the output
directory. -/
theorem spec_C4 (env : ProcEnv) (image d1 d2 : String) (w h d : Nat)
    (hin : env.fs (ospathjoin d1 image) = some (.image w h d))
    (hw : env.writeError (ospathjoin d2 image) = none) :
    process_single_image env image d1 d2 =
      { result := [.b true, .s image],
        written := [(ospathjoin d2 image,
          { img := { width := w, height := h, data := d,
                     history := [.convertRGB, .gaussianBlur 10, .contrastEnhance 1.5,
                                 .edgeEnhanceMore, .invert, .gaussianBlur 5,
                                 .resize (w * 2) (h * 2) .lanczos, .resize w h .lanczos] },
            quality := 95, optimize := true })] } := by
  simp [process_single_image, process_body, openImage, hin, hw, Img.apply]

/-- Witness for C4 at a concrete input: a 4x3 image at `in/001.png`. -/
theorem spec_C4_witness :
    process_single_image procEnvTest "001.png" "in" "out" =
      { result := [.b true, .s "001.png"],
        written := [("out/001.png",
          { img := { width := 4, height := 3, data := 7,
                     history := [.convertRGB, .gaussianBlur 10, .contrastEnhance 1.5,
                                 .edgeEnhanceMore, .invert, .gaussianBlur 5,
                                 .resize 8 6 .lanczos, .resize 4 3 .lanczos] },
            quality := 95, optimize := true })] } := by
  have h := spec_C4 procEnvTest "001.png" "in" "out" 4 3 7 (by rfl) (by rfl)
  rw [h]
  rfl

/-- C7: the transform chain is a deterministic function of the input
file's bytes: two runs whose environments agree on the input file and on
the writability of the output path produce identical results and
byte-identical written output. -/
theorem spec_C7 (env1 env2 : ProcEnv) (image d1 d2 : String)
    (hfs : env1.fs (ospathjoin d1 image) = env2.fs (ospathjoin d1 image))
    (hw : env1.writeError (ospathjoin d2 image) = env2.writeError (ospathjoin d2 image)) :
    process_single_image env1 image d1 d2 = process_single_image env2 image d1 d2 := by
  simp only [process_single_image, process_body, hfs, hw]

/-- Witness for C7 at a concrete input: two environments that agree on
`in/001.png` (and differ elsewhere) produce identical runs. -/
theorem spec_C7_witness :
    process_single_image procEnvTest "001.png" "in" "out" =
      process_single_image procEnvTest2 "001.png" "in" "out" :=
  spec_C7 procEnvTest procEnvTest2 "001.png" "in" "out" (by rfl) (by rfl)

/-- C5: a transform task that fails is recorded as failed with the
underlying error message and writes no output file; in a batch with
exactly one failing input and all other inputs succeeding, the
aggregation reports exactly that one failure and successes for all the
rest, in any completion order. -/
theorem spec_C5 (env : ProcEnv) (d1 d2 : String) (images : List String) (bad : String)
    (order : List (List PyVal))
    (hperm : order.Perm (images.map fun im => (process_single_image env im d1 d2).result))
    (hmem : bad ∈ images) (hcount : images.count bad = 1)
    (hbad : isSucc (process_single_image env bad d1 d2).result = false)
    (hgood : ∀ im ∈ images, im ≠ bad →
      isSucc (process_single_image env im d1 d2).result = true) :
    (process_single_image env bad d1 d2).written = [] ∧
    (∃ m, (process_single_image env bad d1 d2).result = [.b false, .s bad, .s m]) ∧
    ∃ fails, process_collect order = Except.ok (images.length - 1, fails) ∧
      fails.length = 1 := by
  refine ⟨process_written_of_fail env bad d1 d2 hbad, ?_, ?_⟩
  · rcases process_result_cases env bad d1 d2 with h | h
    · rw [h] at hbad
      simp [isSucc] at hbad
    · exact h
  · have hshape : ∀ r ∈ images.map fun im => (process_single_image env im d1 d2).result,
        goodShape r := by
      intro r hr
      obtain ⟨im, him, hrim⟩ := List.mem_map.mp hr
      rcases process_result_cases env im d1 d2 with h | ⟨m, h⟩
      · exact Or.inl ⟨im, by rw [← hrim, h]⟩
      · exact Or.inr ⟨im, m, by rw [← hrim, h]⟩
    have hshape2 : ∀ r ∈ order, goodShape r := fun r hr => hshape r (hperm.subset hr)
    obtain ⟨fails, hfold, hlen⟩ := process_collect_go order (0, []) hshape2
    have hfailcnt : order.countP (fun r => !(isSucc r)) = 1 := by
      rw [hperm.countP_eq, List.countP_map]
      have hpt : ∀ im ∈ images,
          (((fun r => !(isSucc r)) ∘ fun im => (process_single_image env im d1 d2).result) im
            = true ↔ (im == bad) = true) := by
        intro im him
        by_cases h : im = bad
        · subst h
          simp [Function.comp, hbad]
        · simp [Function.comp, hgood im him h, h]
      rw [List.countP_congr hpt]
      rw [← List.count]
      exact hcount
    have htot : order.length = images.length := by
      rw [hperm.length_eq, List.length_map]
    have hsplit := List.length_eq_countP_add_countP isSucc order
    have hconv : order.countP (fun a => decide ¬(isSucc a = true))
        = order.countP (fun r => !(isSucc r)) := by
      apply List.countP_congr
      intro x hx
      simp
    have hsucccnt : order.countP isSucc = images.length - 1 := by omega
    refine ⟨fails, ?_, ?_⟩
    · rw [process_collect, hfold, hsucccnt]
      simp
    · rw [hlen, hfailcnt]
      simp

/-- Witness for C5 at a concrete input: a batch of three files of which
only `002.png` is corrupt yields two successes and exactly one failure. -/
theorem spec_C5_witness :
    ∃ fails, process_collect (["001.png", "002.png", "003.png"].map
        fun im => (process_single_image procEnvOneBad im "in" "out").result)
      = Except.ok (2, fails) ∧ fails.length = 1 := by
  have h := spec_C5 procEnvOneBad "in" "out" ["001.png", "002.png", "003.png"] "002.png"
    (["001.png", "002.png", "003.png"].map
      fun im => (process_single_image procEnvOneBad im "in" "out").result)
    (List.Perm.refl _) (by simp) (by decide) (by rfl) ?_
  · simpa using h.2.2
  · intro im him hne
    simp only [List.mem_cons, List.not_mem_nil, or_false] at him
    rcases him with rfl | rfl | rfl
    · rfl
    · exact absurd rfl hne
    · rfl

/-- C6: the transform phase processes exactly the `.png` files of the
input directory listing, sorted by name; its `totalItems` is the size of
that listing (independent of how many fetch-phase items succeeded). -/
theorem spec_C6 (listing : List String) (env : ProcEnv) (d1 d2 : String) :
    (∀ f, f ∈ phaseBImages listing ↔ f ∈ listing ∧ endswith f ".png" = true) ∧
    List.Sorted (· ≤ ·) (phaseBImages listing) ∧
    (phaseBImages listing).length
      = (listing.filter (fun f => endswith f ".png")).length ∧
    (processTasks listing env d1 d2).length = (phaseBImages listing).length ∧
    (∀ order s, process_pokemon listing order = Except.ok s →
      s.totalItems = (listing.filter (fun f => endswith f ".png")).length) := by
  have hperm : (phaseBImages listing).Perm (listing.filter fun f => endswith f ".png") :=
    List.perm_insertionSort _ _
  refine ⟨?_, ?_, hperm.length_eq, by simp [processTasks], ?_⟩
  · intro f
    rw [hperm.mem_iff, List.mem_filter]
  · exact List.sorted_insertionSort _ _
  · intro order s hs
    rw [process_pokemon] at hs
    cases hc : process_collect order with
    | error m =>
        rw [hc] at hs
        exact Except.noConfusion hs
    | ok p =>
        obtain ⟨succ, failed⟩ := p
        rw [hc] at hs
        injection hs with hs
        rw [← hs]
        exact hperm.length_eq

/-- Witness for C6 at a concrete input: a listing with one `.png` file
and one other file gives `totalItems = 1`. -/
theorem spec_C6_witness :
    (BatchSummary.mk 1 0 []).totalItems
      = ((["001.png", "notes.txt"] : List String).filter
          (fun f => endswith f ".png")).length := by
  have h := (spec_C6 ["001.png", "notes.txt"] procEnvTest "in" "out").2.2.2.2
  exact h [] (BatchSummary.mk 1 0 []) (by rfl)

/-! ## Bounded-pool invariants -/

/-- The pool invariant holds initially. -/
theorem poolInv_init (c m : Nat) : poolInv c m (initPool m) := by
  constructor
  · simp [initPool]
  · simp [initPool]

/-- Every scheduling step preserves the pool invariant. -/
theorem poolInv_step {c m : Nat} {s s2 : PoolState}
    (hinv : poolInv c m s) (hstep : PoolStep c s s2) : poolInv c m s2 := by
  obtain ⟨hlen, hms⟩ := hinv
  cases hstep with
  | start i pending running done h =>
      refine ⟨by simpa using h, ?_⟩
      rw [← hms]
      simp only [← Multiset.cons_coe, Multiset.cons_add, Multiset.add_cons]
  | finish i pending running done h =>
      constructor
      · show (running.erase i).length ≤ c
        have hlen2 : running.length ≤ c := hlen
        rw [List.length_erase_of_mem h]
        omega
      · have hmem : i ∈ (running : Multiset Nat) := by simpa using h
        have hms2 : (pending : Multiset Nat) + (running : Multiset Nat)
            + (done : Multiset Nat) = ↑(List.range m) := hms
        show ((pending : Multiset Nat) + ((running.erase i : List Nat) : Multiset Nat)
          + ((i :: done : List Nat) : Multiset Nat)) = ↑(List.range m)
        rw [← hms2]
        calc ((pending : Multiset Nat) + ((running.erase i : List Nat) : Multiset Nat)
              + ((i :: done : List Nat) : Multiset Nat))
            = (pending : Multiset Nat) + ((running : Multiset Nat).erase i)
              + (i ::ₘ (done : Multiset Nat)) := by
              rw [Multiset.coe_erase, Multiset.cons_coe]
          _ = (pending : Multiset Nat) + (i ::ₘ ((running : Multiset Nat).erase i))
              + (done : Multiset Nat) := by
              simp only [Multiset.add_cons, Multiset.cons_add]
          _ = (pending : Multiset Nat) + (running : Multiset Nat)
              + (done : Multiset Nat) := by
              rw [Multiset.cons_erase hmem]

/-- The pool invariant holds in every reachable state. -/
theorem poolInv_reach (c m : Nat) (s : PoolState) (h : PoolReach c m s) :
    poolInv c m s := by
  induction h with
  | refl => exact poolInv_init c m
  | tail hsteps hstep ih => exact poolInv_step ih hstep

/-- Every scheduling step strictly decreases the pool measure. -/
theorem poolStep_measure {c : Nat} {s s2 : PoolState} (h : PoolStep c s s2) :
    poolMeasure s2 < poolMeasure s := by
  cases h with
  | start i pending running done h =>
      simp [poolMeasure]
      omega
  | finish i pending running done h =>
      have h1 := List.length_erase_of_mem h
      have h2 : 0 < running.length := List.length_pos_of_mem h
      simp [poolMeasure, h1]
      omega

/-- C8: in every reachable state of the bounded pool with `c ≥ 1`
workers over `m` submitted tasks, at most `c` tasks run concurrently;
when the pool has drained, the collected results are exactly one per
submitted task (no duplicates, no omissions, arbitrary order); a
non-drained pool can always step, and every step decreases a measure, so
the pool always drains. -/
theorem spec_C8 (c m : Nat) (s : PoolState) (hc : 1 ≤ c) (hreach : PoolReach c m s) :
    s.running.length ≤ c ∧
    (PoolDone s → s.done.Perm (List.range m) ∧ s.done.Nodup ∧ s.done.length = m) ∧
    (¬ PoolDone s → ∃ s2, PoolStep c s s2) ∧
    (∀ s2, PoolStep c s s2 → poolMeasure s2 < poolMeasure s) := by
  obtain ⟨hlen, hms⟩ := poolInv_reach c m s hreach
  refine ⟨hlen, ?_, ?_, fun s2 h => poolStep_measure h⟩
  · intro hdone
    obtain ⟨hp, hr⟩ := hdone
    rw [hp, hr] at hms
    have hcoe : (s.done : Multiset Nat) = ↑(List.range m) := by simpa using hms
    have hperm : s.done.Perm (List.range m) := Multiset.coe_eq_coe.mp hcoe
    exact ⟨hperm, hperm.nodup_iff.mpr (List.nodup_range m),
      hperm.length_eq.trans (List.length_range m)⟩
  · intro hnd
    obtain ⟨pending, running, done⟩ := s
    cases pending with
    | cons i rest =>
        by_cases hlt : running.length < c
        · exact ⟨_, PoolStep.start i rest running done hlt⟩
        · cases running with
          | nil => exact absurd (by simpa using hc) hlt
          | cons j rs =>
              exact ⟨_, PoolStep.finish j (i :: rest) (j :: rs) done
                (List.mem_cons_self j rs)⟩
    | nil =>
        cases running with
        | nil => exact absurd (show PoolDone ⟨[], [], done⟩ from ⟨rfl, rfl⟩) hnd
        | cons j rs =>
            exact ⟨_, PoolStep.finish j [] (j :: rs) done (List.mem_cons_self j rs)⟩

/-- Witness for C8 at a concrete input: one worker, one task, run to the
drained state, which holds exactly that task's result. -/
theorem spec_C8_witness :
    (PoolState.mk [] [] [0]).done.Perm (List.range 1) := by
  have h1 : PoolStep 1 (initPool 1) (PoolState.mk [] [0] []) :=
    PoolStep.start 0 [] [] [] (by simp)
  have h2 : PoolStep 1 (PoolState.mk [] [0] []) (PoolState.mk [] [] [0]) := by
    have h := PoolStep.finish (c := 1) 0 [] [0] [] (List.mem_cons_self 0 [])
    simpa using h
  have hreach : PoolReach 1 1 (PoolState.mk [] [] [0]) :=
    Relation.ReflTransGen.tail (Relation.ReflTransGen.tail Relation.ReflTransGen.refl h1) h2
  exact ((spec_C8 1 1 _ le_rfl hreach).2.1 ⟨rfl, rfl⟩).1

end Pokemon
